import Mathlib

set_option maxRecDepth 8192

/- Verification of the documentation acquisition, extraction, and search
   subsystem of the Robot Framework documentation MCP server
   (rf_docs_server.py).

   The Python code is shallowly embedded:
   * the HTML section parser (class DocumentationParser) is modelled over the
     SAX-style event stream that html.parser.HTMLParser delivers to the
     handle_starttag / handle_endtag / handle_data callbacks;
   * the embedded-JSON extractor of _parse_library_keywords is modelled as a
     character-list scan with the same state variables (depth, in_string,
     escape) as the Python loop;
   * Python str operations (strip, lower, count, replace, join) are modelled
     over character lists, restricted to ASCII (all inputs considered here
     are ASCII);
   * the search and keyword-lookup tools are modelled as pure functions over
     the persisted section / keyword snapshots, which are given to them as
     ordered association lists (Python dicts preserve insertion order);
   * the multi-library refresh orchestration (fetch_rf_documentation) is
     modelled as a pure function of the outcomes of its external
     collaborators (cache state, download success, per-library parse
     outcome). -/

/-! ## Python string primitives -/

/-- ASCII whitespace, as recognized by Python str.strip() and by the regex
    class \s (restricted to the ASCII range; all inputs considered in this
    development are ASCII). -/
def isPySpace (c : Char) : Bool :=
  c = ' ' || c = '\t' || c = '\n' || c = '\r' || c = '\x0b' || c = '\x0c'

/-- Python str.strip(): drop leading and trailing whitespace. -/
def pyStripL (cs : List Char) : List Char :=
  ((cs.dropWhile isPySpace).reverse.dropWhile isPySpace).reverse

/-- Python str.strip() on strings. -/
def pyStrip (s : String) : String :=
  String.mk (pyStripL s.data)

/-- Python str.lower(), restricted to ASCII (Char.toLower lowercases exactly
    the ASCII uppercase letters). -/
def pyLower (s : String) : String :=
  String.mk (s.data.map Char.toLower)

/-- Python s[:n] slicing on strings. -/
def pyTake (n : Nat) (s : String) : String :=
  String.mk (s.data.take n)

/-- Helper for Python str.count with a non-empty pattern: number of
    non-overlapping occurrences, scanning left to right.  The first argument
    is fuel; pyCountL passes the length of the scanned list, which is always
    sufficient. -/
def pyCountAux : Nat → List Char → List Char → Nat
  | 0, _, _ => 0
  | Nat.succ fuel, s, sub =>
    match s with
    | [] => 0
    | c :: rest =>
      if sub.isPrefixOf (c :: rest) then
        Nat.succ (pyCountAux fuel ((c :: rest).drop sub.length) sub)
      else pyCountAux fuel rest sub

/-- Python str.count(sub): non-overlapping occurrences; for an empty pattern
    Python returns len(s) + 1. -/
def pyCountL (s sub : List Char) : Nat :=
  if sub.isEmpty then s.length + 1 else pyCountAux s.length s sub

/-- Python str.count on strings. -/
def pyCount (s sub : String) : Nat := pyCountL s.data sub.data

/-- Helper for Python str.replace with a non-empty pattern (fuel-indexed;
    pyReplaceL passes the length of the scanned list, always sufficient). -/
def pyReplaceAux : Nat → List Char → List Char → List Char → List Char
  | 0, s, _, _ => s
  | Nat.succ fuel, s, old, new =>
    match s with
    | [] => []
    | c :: rest =>
      if old.isPrefixOf (c :: rest) then
        new ++ pyReplaceAux fuel ((c :: rest).drop old.length) old new
      else c :: pyReplaceAux fuel rest old new

/-- Python str.replace with an empty pattern inserts the replacement around
    every character. -/
def pyReplaceEmptyPat (s new : List Char) : List Char :=
  match s with
  | [] => new
  | c :: rest => new ++ c :: pyReplaceEmptyPat rest new

/-- Python str.replace(old, new): replace all non-overlapping occurrences,
    scanning left to right. -/
def pyReplaceL (s old new : List Char) : List Char :=
  if old.isEmpty then pyReplaceEmptyPat s new else pyReplaceAux s.length s old new

/-- Python str.replace on strings. -/
def pyReplace (s old new : String) : String :=
  String.mk (pyReplaceL s.data old.data new.data)

/-- sub occurs contiguously somewhere inside s. -/
def OccursIn (sub s : List Char) : Prop :=
  ∃ pre post, pre ++ sub ++ post = s

/-! ## Section parser (class DocumentationParser, rf_docs_server.py 66-118) -/

/-- One record of the section index: the Python dict with keys id, level,
    title, content built by DocumentationParser. -/
structure DocSection where
  sid : String
  level : Nat
  title : String
  content : String
deriving DecidableEq

/-- A SAX-style markup event.  html.parser.HTMLParser tokenizes the raw HTML
    and invokes the handler methods once per tag or text fragment; the
    embedding works at the level of that event stream (tag names arrive
    lowercased, attribute values as strings). -/
inductive HtmlEvent where
  | startTag (tag : String) (attrs : List (String × String))
  | endTag (tag : String)
  | text (s : String)
deriving DecidableEq

/-- dict(attrs).get('id', ''): the last binding of a key wins when a Python
    dict is built from a key/value list. -/
def attrsGetId (attrs : List (String × String)) : String :=
  (attrs.foldl (fun acc p => if p.1 = "id" then some p.2 else acc) none).getD ""

/-- tag in ['h1', 'h2', 'h3', 'h4'], with int(tag[1]) as the rank. -/
def headingLevel? (tag : String) : Option Nat :=
  if tag = "h1" then some 1
  else if tag = "h2" then some 2
  else if tag = "h3" then some 3
  else if tag = "h4" then some 4
  else none

/-- Mutable state of DocumentationParser. -/
structure DocParserState where
  sections : List DocSection
  currentSection : Option DocSection
  currentContent : List String
  inSection : Bool
  sectionLevel : Nat
deriving DecidableEq

/-- State set up by DocumentationParser.__init__. -/
def initDocParserState : DocParserState :=
  { sections := [], currentSection := none, currentContent := [],
    inSection := false, sectionLevel := 0 }

/-- current_section['content'] = ' '.join(current_content).strip() -/
def finalizeSection (cs : DocSection) (content : List String) : DocSection :=
  { cs with content := pyStrip (String.intercalate " " content) }

/-- DocumentationParser.handle_starttag. -/
def handleStarttag (st : DocParserState) (tag : String)
    (attrs : List (String × String)) : DocParserState :=
  match headingLevel? tag with
  | some lvl =>
    let secs :=
      match st.currentSection with
      | some cs => st.sections ++ [finalizeSection cs st.currentContent]
      | none => st.sections
    { sections := secs
      currentSection := some { sid := attrsGetId attrs, level := lvl, title := "", content := "" }
      currentContent := []
      inSection := true
      sectionLevel := lvl }
  | none => st

/-- DocumentationParser.handle_endtag. -/
def handleEndtag (st : DocParserState) (tag : String) : DocParserState :=
  match headingLevel? tag with
  | some _ => { st with inSection := false }
  | none => st

/-- DocumentationParser.handle_data.  Inside an open heading every data
    fragment is assigned to the title (overwriting the previous value);
    outside a heading, non-empty stripped fragments are appended to the
    content accumulator. -/
def handleText (st : DocParserState) (d : String) : DocParserState :=
  if st.inSection && st.currentSection.isSome then
    { st with currentSection :=
        st.currentSection.map (fun cs => { cs with title := pyStrip d }) }
  else if st.currentSection.isSome then
    let t := pyStrip d
    if t = "" then st else { st with currentContent := st.currentContent ++ [t] }
  else st

/-- Dispatch one event to the corresponding handler. -/
def docStep (st : DocParserState) (e : HtmlEvent) : DocParserState :=
  match e with
  | .startTag tag attrs => handleStarttag st tag attrs
  | .endTag tag => handleEndtag st tag
  | .text d => handleText st d

/-- DocumentationParser.get_sections: finalize the open section, if any. -/
def getSections (st : DocParserState) : List DocSection :=
  match st.currentSection with
  | some cs => st.sections ++ [finalizeSection cs st.currentContent]
  | none => st.sections

/-- parser.feed(html) followed by parser.get_sections(), over the event
    stream. -/
def parseSections (events : List HtmlEvent) : List DocSection :=
  getSections (events.foldl docStep initDocParserState)

/-! Helper facts about the section parser. -/

/-- The heading rank announced by an event, if it opens a heading. -/
def headingRankOf (e : HtmlEvent) : Option Nat :=
  match e with
  | .startTag tag _ => headingLevel? tag
  | _ => none

/-- Levels of the sections a state will eventually emit: the saved sections
    followed by the in-progress one. -/
def stateLevels (st : DocParserState) : List Nat :=
  st.sections.map (·.level) ++
    (match st.currentSection with
     | some cs => [cs.level]
     | none => [])

theorem stateLevels_docStep (st : DocParserState) (e : HtmlEvent) :
    stateLevels (docStep st e) = stateLevels st ++ (headingRankOf e).toList := by
  cases e with
  | startTag tag attrs =>
    cases h : headingLevel? tag with
    | none => simp [docStep, handleStarttag, headingRankOf, h]
    | some lvl =>
      cases hc : st.currentSection with
      | none => simp [docStep, handleStarttag, headingRankOf, h, stateLevels, hc]
      | some cs =>
        simp [docStep, handleStarttag, headingRankOf, h, stateLevels, hc, finalizeSection]
  | endTag tag =>
    cases h : headingLevel? tag with
    | none => simp [docStep, handleEndtag, headingRankOf, h]
    | some lvl => simp [docStep, handleEndtag, headingRankOf, h, stateLevels]
  | text d =>
    cases hc : st.currentSection with
    | none => simp [docStep, handleText, headingRankOf, hc, stateLevels]
    | some cs =>
      cases hin : st.inSection with
      | true => simp [docStep, handleText, headingRankOf, hc, hin, stateLevels]
      | false =>
        by_cases h3 : pyStrip d = "" <;>
          simp [docStep, handleText, headingRankOf, hc, hin, stateLevels, h3]

theorem stateLevels_foldl (events : List HtmlEvent) (st : DocParserState) :
    stateLevels (events.foldl docStep st) =
      stateLevels st ++ events.filterMap headingRankOf := by
  induction events generalizing st with
  | nil => simp
  | cons e rest ih =>
    simp only [List.foldl_cons, ih, stateLevels_docStep, List.filterMap_cons]
    cases h : headingRankOf e with
    | none => simp
    | some lvl => simp

theorem getSections_map_level (st : DocParserState) :
    (getSections st).map (·.level) = stateLevels st := by
  cases hc : st.currentSection with
  | none => simp [getSections, hc, stateLevels]
  | some cs => simp [getSections, hc, stateLevels, finalizeSection]

/-- C7: for any event stream, the section parser emits one section per
    heading start event of rank 1 to 4, in document order, each with level
    equal to the heading rank; a stream with no headings yields no sections;
    and text after the last heading is accumulated into the last section
    instead of opening a trailing one. -/
theorem spec_c7 :
    (∀ events : List HtmlEvent,
        (parseSections events).map (·.level) = events.filterMap headingRankOf) ∧
    (∀ events : List HtmlEvent,
        events.filterMap headingRankOf = [] → parseSections events = []) ∧
    parseSections [HtmlEvent.startTag "h1" [], HtmlEvent.text "Intro", HtmlEvent.endTag "h1",
        HtmlEvent.text "alpha", HtmlEvent.startTag "h2" [("id", "x")], HtmlEvent.text "Deep",
        HtmlEvent.endTag "h2", HtmlEvent.text "beta", HtmlEvent.text "gamma"] =
      [{ sid := "", level := 1, title := "Intro", content := "alpha" },
       { sid := "x", level := 2, title := "Deep", content := "beta gamma" }] := by
  have key : ∀ events : List HtmlEvent,
      (parseSections events).map (·.level) = events.filterMap headingRankOf := by
    intro events
    rw [parseSections, getSections_map_level, stateLevels_foldl]
    simp [stateLevels, initDocParserState]
  refine ⟨key, ?_, by decide⟩
  intro events h
  have h2 := key events
  rw [h] at h2
  exact List.map_eq_nil_iff.mp h2

/-- Witness for C7: a stream with no heading events yields no sections. -/
theorem spec_c7_witness :
    parseSections [HtmlEvent.text "plain text only", HtmlEvent.startTag "p" [],
        HtmlEvent.endTag "p"] = [] :=
  spec_c7.2.1 [HtmlEvent.text "plain text only", HtmlEvent.startTag "p" [],
    HtmlEvent.endTag "p"] (by decide)

theorem handleText_init (d : String) :
    handleText initDocParserState d = initDocParserState := by
  simp [handleText, initDocParserState]

theorem docStep_init_no_heading (e : HtmlEvent) (h : headingRankOf e = none) :
    docStep initDocParserState e = initDocParserState := by
  cases e with
  | startTag tag attrs =>
    simp only [headingRankOf] at h
    simp [docStep, handleStarttag, h]
  | endTag tag =>
    cases ht : headingLevel? tag with
    | none => simp [docStep, handleEndtag, ht]
    | some lvl => simp [docStep, handleEndtag, ht, initDocParserState]
  | text d => exact handleText_init d

/-- C10: every text fragment occurring before the first heading start event
    is discarded, wherever it sits: any event prefix containing no heading
    start tag (text fragments freely interleaved with non-heading start and
    end tags, even stray heading end tags) leaves the parser in its initial
    state, so the final output equals the parse of the remaining stream and
    none of those fragments reaches any section title or content. -/
theorem spec_c10 :
    (∀ pre : List HtmlEvent, (∀ e ∈ pre, headingRankOf e = none) →
        pre.foldl docStep initDocParserState = initDocParserState) ∧
    (∀ (pre rest : List HtmlEvent), (∀ e ∈ pre, headingRankOf e = none) →
        parseSections (pre ++ rest) = parseSections rest) ∧
    parseSections [HtmlEvent.startTag "p" [], HtmlEvent.text "orphan",
        HtmlEvent.endTag "p", HtmlEvent.text "more", HtmlEvent.startTag "h1" [],
        HtmlEvent.text "T", HtmlEvent.endTag "h1", HtmlEvent.text "body"] =
      [{ sid := "", level := 1, title := "T", content := "body" }] := by
  have key : ∀ pre : List HtmlEvent, (∀ e ∈ pre, headingRankOf e = none) →
      pre.foldl docStep initDocParserState = initDocParserState := by
    intro pre h
    induction pre with
    | nil => rfl
    | cons e rest ih =>
      rw [List.foldl_cons, docStep_init_no_heading e (h e (List.mem_cons_self e rest)),
        ih (fun x hx => h x (List.mem_cons_of_mem e hx))]
  refine ⟨key, ?_, by decide⟩
  intro pre rest h
  rw [parseSections, List.foldl_append, key pre h, parseSections]

/-- Witness for C10: a prefix holding a paragraph tag pair and two orphan
    text fragments before the first heading is discharged concretely. -/
theorem spec_c10_witness :
    parseSections ([HtmlEvent.startTag "p" [], HtmlEvent.text "orphan",
        HtmlEvent.endTag "p", HtmlEvent.text "more"] ++
      [HtmlEvent.startTag "h1" [], HtmlEvent.text "T", HtmlEvent.endTag "h1"]) =
      parseSections [HtmlEvent.startTag "h1" [], HtmlEvent.text "T",
        HtmlEvent.endTag "h1"] :=
  spec_c10.2.1
    [HtmlEvent.startTag "p" [], HtmlEvent.text "orphan", HtmlEvent.endTag "p",
      HtmlEvent.text "more"]
    [HtmlEvent.startTag "h1" [], HtmlEvent.text "T", HtmlEvent.endTag "h1"]
    (by decide)

theorem foldText_state (ds : List String) (d : String) (st : DocParserState)
    (cs : DocSection) (hin : st.inSection = true) (hc : st.currentSection = some cs) :
    ((d :: ds).map HtmlEvent.text).foldl docStep st =
      { st with currentSection := some { cs with title := pyStrip (ds.getLastD d) } } := by
  induction ds generalizing d st cs with
  | nil => simp [docStep, handleText, hin, hc, List.getLastD]
  | cons d2 ds ih =>
    have step : docStep st (HtmlEvent.text d) =
        { st with currentSection := some { cs with title := pyStrip d } } := by
      simp [docStep, handleText, hin, hc]
    simp only [List.map_cons, List.foldl_cons] at ih ⊢
    rw [step, ih d2 _ { cs with title := pyStrip d } (by simp [hin]) (by simp),
      List.getLastD_cons]

theorem handleStarttag_heading (st : DocParserState) (tag : String)
    (attrs : List (String × String)) (lvl : Nat) (h : headingLevel? tag = some lvl) :
    handleStarttag st tag attrs =
      { sections :=
          match st.currentSection with
          | some cs => st.sections ++ [finalizeSection cs st.currentContent]
          | none => st.sections
        currentSection := some { sid := attrsGetId attrs, level := lvl, title := "", content := "" }
        currentContent := []
        inSection := true
        sectionLevel := lvl } := by
  simp [handleStarttag, h]

/-- C2 (amended): inside a heading, every text fragment overwrites the title,
    so the LAST fragment (trimmed, possibly to the empty string) wins, not the
    first non-empty one; with no fragment the title stays empty. -/
theorem spec_c2 :
    (∀ (st : DocParserState) (tag : String) (attrs : List (String × String))
        (ds : List String) (lvl : Nat),
        headingLevel? tag = some lvl →
        ((ds.map HtmlEvent.text).foldl docStep
            (docStep st (HtmlEvent.startTag tag attrs))).currentSection =
          some { sid := attrsGetId attrs, level := lvl,
                 title := pyStrip (ds.getLastD ""), content := "" }) ∧
    parseSections [HtmlEvent.startTag "h2" [], HtmlEvent.text "Title",
        HtmlEvent.text "  ", HtmlEvent.endTag "h2"] =
      [{ sid := "", level := 2, title := "", content := "" }] := by
  constructor
  · intro st tag attrs ds lvl h
    have hstart := handleStarttag_heading st tag attrs lvl h
    have hystrip : pyStrip "" = "" := by decide
    cases ds with
    | nil =>
      simp only [List.map_nil, List.foldl_nil, docStep, hstart, List.getLastD_nil]
      simp [hystrip]
    | cons d ds =>
      simp only [docStep, hstart]
      rw [foldText_state ds d _
        { sid := attrsGetId attrs, level := lvl, title := "", content := "" }
        (by rfl) (by rfl), List.getLastD_cons]
  · decide

/-- Witness for C2 (amended): with fragments First then Second inside one
    heading, the recorded title is Second. -/
theorem spec_c2_witness :
    ((["First", "Second"].map HtmlEvent.text).foldl docStep
        (docStep initDocParserState (HtmlEvent.startTag "h1" []))).currentSection =
      some { sid := "", level := 1, title := "Second", content := "" } := by
  rw [spec_c2.1 initDocParserState "h1" [] ["First", "Second"] 1 (by decide)]
  decide

/-- C2 counterexample: a heading containing the fragments First then Second
    ends with title Second, not the first non-empty fragment First that the
    claim requires. -/
theorem spec_c2_counterexample :
    parseSections [HtmlEvent.startTag "h1" [], HtmlEvent.text "First",
        HtmlEvent.text "Second", HtmlEvent.endTag "h1"] =
      [{ sid := "", level := 1, title := "Second", content := "" }] ∧
    ("Second" : String) ≠ "First" := by
  exact ⟨by decide, by decide⟩

/-! ## Embedded-object extractor (_parse_library_keywords, rf_docs_server.py
    195-298): marker search, brace-counting scan, JSON decode. -/

/-- State variables of the brace-counting loop: depth, in_string, escape. -/
structure ScanState where
  depth : Int
  inStr : Bool
  esc : Bool
deriving DecidableEq

/-- Loop state on entry (depth = 0, in_string = False, escape = False). -/
def scanInit : ScanState := { depth := 0, inStr := false, esc := false }

/-- One iteration of the loop body, state updates only: an escaped character
    is consumed with escape cleared; a backslash sets escape; a double quote
    toggles in_string; braces adjust depth only outside strings. -/
def scanStep (st : ScanState) (c : Char) : ScanState :=
  if st.esc then { st with esc := false }
  else if c = '\\' then { st with esc := true }
  else if c = '"' then { st with inStr := !st.inStr }
  else if !st.inStr && c = '\x7b' then { st with depth := st.depth + 1 }
  else if !st.inStr && c = '\x7d' then { st with depth := st.depth - 1 }
  else st

/-- The loop breaks successfully exactly when the current character is an
    unescaped closing brace outside a string that brings depth back to zero
    (the depth == 0 test runs right after the decrement, so the depth before
    this character is 1). -/
def isCloseB (st : ScanState) (c : Char) : Bool :=
  !st.esc && !st.inStr && c = '\x7d' && st.depth == 1

/-- The scan loop (for i in range(start_pos, len(html_content))): returns the
    number of characters from the scan start through the successful closing
    brace, or none when the input is exhausted first (the for-else branch). -/
def braceScan : List Char → ScanState → Option Nat
  | [], _ => none
  | c :: rest, st =>
    if isCloseB st c then some 1
    else (braceScan rest (scanStep st c)).map (· + 1)

/-- Attempt to match the regex libdoc\s*=\s*\{ at the head of cs, returning
    the length of the match.  The whitespace runs are maximal; since the
    character required after each \s* run is never itself whitespace, the
    greedy match is the only possible one and the match length is
    deterministic. -/
def markerEndAux (cs : List Char) : Option Nat :=
  if ("libdoc".data).isPrefixOf cs then
    let rest1 := cs.drop 6
    let w1 := (rest1.takeWhile isPySpace).length
    match rest1.drop w1 with
    | '=' :: rest2 =>
      let w2 := (rest2.takeWhile isPySpace).length
      match rest2.drop w2 with
      | '\x7b' :: _ => some (6 + w1 + 1 + w2 + 1)
      | _ => none
    | _ => none
  else none

/-- re.search: scan for the leftmost position where the marker matches;
    returns start_match.end() - 1, the index of the opening brace. -/
def findStartAux : List Char → Nat → Option Nat
  | [], _ => none
  | c :: rest, i =>
    match markerEndAux (c :: rest) with
    | some len => some (i + len - 1)
    | none => findStartAux rest (i + 1)

/-- start_pos: index of the opening brace of the libdoc object. -/
def findLibdocStart (cs : List Char) : Option Nat := findStartAux cs 0

/-- Outcome of the extraction stage of _parse_library_keywords. -/
inductive ExtractResult where
  | notFound
  | unbalanced
  | malformedPayload
  | ok (payload : List Char)
deriving DecidableEq

/-- Marker search plus brace scan: the substring html_content[start_pos:end_pos]
    handed to json.loads, or the structural error that prevented extraction. -/
def extractRaw (html : List Char) : ExtractResult :=
  match findLibdocStart html with
  | none => .notFound
  | some s =>
    match braceScan (html.drop s) scanInit with
    | none => .unbalanced
    | some n => .ok ((html.drop s).take n)

/-! JSON validity, modelling acceptance by Python json.loads (RFC 8259
    grammar; the NaN / Infinity extension of the Python decoder is not
    modelled, no input considered here involves it). -/

def jsonSkipWs (cs : List Char) : List Char :=
  cs.dropWhile (fun c => c = ' ' || c = '\t' || c = '\n' || c = '\r')

def jsonHexDigit (c : Char) : Bool :=
  c.isDigit || ('a' ≤ c && c ≤ 'f') || ('A' ≤ c && c ≤ 'F')

/-- Consume the remainder of a JSON string literal (after the opening
    quote): escape sequences as in RFC 8259, raw control characters
    rejected (the decoder runs in strict mode). -/
def jsonStringRest : List Char → Option (List Char)
  | [] => none
  | c :: rest =>
    if c = '"' then some rest
    else if c = '\\' then
      match rest with
      | [] => none
      | e :: rest2 =>
        if e = '"' || e = '\\' || e = '/' || e = 'b' || e = 'f' || e = 'n' || e = 'r' || e = 't' then
          jsonStringRest rest2
        else if e = 'u' then
          match rest2 with
          | h1 :: h2 :: h3 :: h4 :: rest3 =>
            if jsonHexDigit h1 && jsonHexDigit h2 && jsonHexDigit h3 && jsonHexDigit h4 then
              jsonStringRest rest3
            else none
          | _ => none
        else none
    else if c.toNat < 32 then none
    else jsonStringRest rest

/-- One or more digits. -/
def jsonDigitsRest (cs : List Char) : Option (List Char) :=
  match cs with
  | c :: rest => if c.isDigit then some (rest.dropWhile Char.isDigit) else none
  | [] => none

/-- JSON number: optional minus, integer part (0 or nonzero-led digits),
    optional fraction, optional exponent. -/
def jsonNumberRest (cs : List Char) : Option (List Char) := do
  let cs1 := match cs with
    | '-' :: rest => rest
    | _ => cs
  let cs2 ← match cs1 with
    | '0' :: rest => some rest
    | _ => jsonDigitsRest cs1
  let cs3 ← match cs2 with
    | '.' :: rest => jsonDigitsRest rest
    | _ => some cs2
  match cs3 with
  | 'e' :: rest =>
    jsonDigitsRest (match rest with
      | '+' :: r => r
      | '-' :: r => r
      | _ => rest)
  | 'E' :: rest =>
    jsonDigitsRest (match rest with
      | '+' :: r => r
      | '-' :: r => r
      | _ => rest)
  | _ => some cs3

mutual

/-- Consume one JSON value (with leading whitespace); fuel-indexed, the
    callers pass at least the input length plus one, which bounds the
    recursion depth. -/
def jsonValueRest : Nat → List Char → Option (List Char)
  | 0, _ => none
  | Nat.succ fuel, cs =>
    let cs1 := jsonSkipWs cs
    match cs1 with
    | '"' :: rest => jsonStringRest rest
    | '\x7b' :: rest =>
      let r2 := jsonSkipWs rest
      (match r2 with
       | '\x7d' :: rest2 => some rest2
       | _ => jsonMembersRest fuel r2)
    | '[' :: rest =>
      let r2 := jsonSkipWs rest
      (match r2 with
       | ']' :: rest2 => some rest2
       | _ => jsonElemsRest fuel r2)
    | 't' :: 'r' :: 'u' :: 'e' :: rest => some rest
    | 'f' :: 'a' :: 'l' :: 's' :: 'e' :: rest => some rest
    | 'n' :: 'u' :: 'l' :: 'l' :: rest => some rest
    | _ => jsonNumberRest cs1

/-- Consume the members of a non-empty JSON object, up to and including the
    closing brace. -/
def jsonMembersRest : Nat → List Char → Option (List Char)
  | 0, _ => none
  | Nat.succ fuel, cs => do
    let cs1 := jsonSkipWs cs
    let cs2 ← match cs1 with
      | '"' :: rest => jsonStringRest rest
      | _ => none
    let cs3 := jsonSkipWs cs2
    let cs4 ← match cs3 with
      | ':' :: rest => some rest
      | _ => none
    let cs5 ← jsonValueRest fuel cs4
    let cs6 := jsonSkipWs cs5
    match cs6 with
    | ',' :: rest => jsonMembersRest fuel rest
    | '\x7d' :: rest => some rest
    | _ => none

/-- Consume the elements of a non-empty JSON array, up to and including the
    closing bracket. -/
def jsonElemsRest : Nat → List Char → Option (List Char)
  | 0, _ => none
  | Nat.succ fuel, cs => do
    let cs1 ← jsonValueRest fuel cs
    let cs2 := jsonSkipWs cs1
    match cs2 with
    | ',' :: rest => jsonElemsRest fuel rest
    | ']' :: rest => some rest
    | _ => none

end

/-- json.loads(payload) succeeds: one complete JSON value, with only
    whitespace around it. -/
def jsonValid (cs : List Char) : Bool :=
  match jsonValueRest (cs.length + 1) cs with
  | some rest => (jsonSkipWs rest).isEmpty
  | none => false

/-- Full extraction stage of _parse_library_keywords: marker search, brace
    scan, then json.loads on the extracted substring, whose JSONDecodeError
    is reported separately from the two structural failures. -/
def extractEmbeddedJson (html : List Char) : ExtractResult :=
  match findLibdocStart html with
  | none => .notFound
  | some s =>
    match braceScan (html.drop s) scanInit with
    | none => .unbalanced
    | some n =>
      if jsonValid ((html.drop s).take n) then .ok ((html.drop s).take n)
      else .malformedPayload

/-- The scan, started in state st, closes at offset k of cs: after folding
    the first k characters through the state update, the character at k is an
    unescaped, unquoted closing brace returning depth to zero. -/
def closesAtFrom (st : ScanState) (cs : List Char) (k : Nat) : Bool :=
  isCloseB (List.foldl scanStep st (cs.take k)) (cs.getD k ' ')

theorem braceScan_eq_find (cs : List Char) (st : ScanState) :
    braceScan cs st =
      ((List.range cs.length).find? (closesAtFrom st cs)).map (· + 1) := by
  induction cs generalizing st with
  | nil => simp [braceScan]
  | cons c rest ih =>
    have h0 : closesAtFrom st (c :: rest) 0 = isCloseB st c := by
      simp [closesAtFrom]
    have hcomp : (closesAtFrom st (c :: rest)) ∘ Nat.succ =
        closesAtFrom (scanStep st c) rest := by
      funext k
      simp [closesAtFrom, Function.comp, List.take_succ_cons, List.getD_cons_succ]
    rw [List.length_cons, List.range_succ_eq_map]
    cases hc : isCloseB st c with
    | true =>
      rw [List.find?_cons_of_pos _ (by rw [h0, hc])]
      simp [braceScan, hc]
    | false =>
      rw [List.find?_cons_of_neg _ (by rw [h0, hc]; exact Bool.false_ne_true),
        List.find?_map, hcomp]
      simp only [braceScan, hc, Bool.false_eq_true, if_false]
      rw [ih (scanStep st c)]

theorem find?_range_first (p : Nat → Bool) (n k : Nat)
    (h : (List.range n).find? p = some k) :
    k < n ∧ p k = true ∧ ∀ j, j < k → p j = false := by
  induction n with
  | zero => simp at h
  | succ n ih =>
    rw [List.range_succ, List.find?_append] at h
    cases hf : (List.range n).find? p with
    | some m =>
      rw [hf] at h
      obtain ⟨h1, h2, h3⟩ := ih (hf.trans h)
      exact ⟨Nat.lt_succ_of_lt h1, h2, h3⟩
    | none =>
      rw [hf] at h
      have hall : ∀ j, j < n → p j = false := by
        intro j hj
        have := List.find?_eq_none.mp hf j (List.mem_range.mpr hj)
        simpa using this
      simp only [Option.none_or, List.find?] at h
      cases hp : p n with
      | true =>
        rw [hp] at h
        simp at h
        subst h
        exact ⟨Nat.lt_succ_self n, hp, hall⟩
      | false =>
        rw [hp] at h
        simp at h

/-- Offset k is the first position at which the brace scan, started at the
    opening brace in the initial state, returns to depth zero. -/
def FirstCloseAt (cs : List Char) (k : Nat) : Prop :=
  k < cs.length ∧ closesAtFrom scanInit cs k = true ∧
    ∀ j, j < k → closesAtFrom scanInit cs j = false

/-- The spec example input: a marker whose object contains closing and
    opening braces inside a string literal. -/
def c1Input : List Char := "x libdoc = \x7b\"a\":\"\x7d\x7b\",\"b\":1\x7d!".data

/-- The full embedded object of c1Input. -/
def c1Payload : List Char := "\x7b\"a\":\"\x7d\x7b\",\"b\":1\x7d".data

/-- C1: whenever the marker is found, a successful extraction returns the
    verbatim substring from the opening brace (inclusive) through the first
    character at which the string- and escape-aware depth count returns to
    zero (inclusive); on the brace-in-string example the full object is
    returned, not a prefix truncated at the closing brace inside the string
    literal. -/
theorem spec_c1 :
    (∀ (html : List Char) (s : Nat), findLibdocStart html = some s →
        ∀ payload, extractRaw html = ExtractResult.ok payload →
          ∃ k, FirstCloseAt (html.drop s) k ∧ payload = (html.drop s).take (k + 1)) ∧
    extractRaw c1Input = ExtractResult.ok c1Payload := by
  constructor
  · intro html s hs payload hp
    cases hb : braceScan (html.drop s) scanInit with
    | none => simp [extractRaw, hs, hb] at hp
    | some n =>
      simp only [extractRaw, hs, hb, ExtractResult.ok.injEq] at hp
      rw [braceScan_eq_find] at hb
      cases hfind : (List.range (html.drop s).length).find?
          (closesAtFrom scanInit (html.drop s)) with
      | none => rw [hfind] at hb; simp at hb
      | some k =>
        rw [hfind] at hb
        have hkn : k + 1 = n := by simpa using hb
        obtain ⟨h1, h2, h3⟩ := find?_range_first _ _ _ hfind
        exact ⟨k, ⟨h1, h2, h3⟩, by rw [← hp, hkn]⟩
  · decide

/-- Witness for C1: the characterization applied to the brace-in-string
    example. -/
theorem spec_c1_witness :
    ∃ k, FirstCloseAt (c1Input.drop 11) k ∧ c1Payload = (c1Input.drop 11).take (k + 1) :=
  spec_c1.1 c1Input 11 (by decide) c1Payload spec_c1.2

theorem markerEndAux_nil : markerEndAux [] = none := by decide

theorem findStartAux_none (l : List Char) (i : Nat) :
    findStartAux l i = none ↔ ∀ j, markerEndAux (l.drop j) = none := by
  induction l generalizing i with
  | nil => simp [findStartAux, List.drop_nil, markerEndAux_nil]
  | cons c rest ih =>
    cases hm : markerEndAux (c :: rest) with
    | some len =>
      simp only [findStartAux, hm]
      constructor
      · intro hfalse; simp at hfalse
      · intro hall
        have h0 := hall 0
        rw [List.drop_zero, hm] at h0
        simp at h0
    | none =>
      simp only [findStartAux, hm]
      rw [ih (i + 1)]
      constructor
      · intro hall j
        cases j with
        | zero => rw [List.drop_zero]; exact hm
        | succ j => exact hall j
      · intro hall j
        exact hall (j + 1)

def c8NoMarker : List Char := "no marker in this document".data

def c8Unclosed : List Char := "libdoc = \x7b\"a\": 1".data

def c8BadJson : List Char := "libdoc = \x7b,\x7d tail".data

def c8Good : List Char := "libdoc = \x7b\"a\": [1, true]\x7d;".data

def c8GoodPayload : List Char := "\x7b\"a\": [1, true]\x7d".data

/-- C8: the extraction stage yields exactly one of three failure outcomes,
    pairwise distinct and each disjoint from success: no marker anywhere in
    the input gives notFound; marker found but scan exhausted before depth
    returns to zero gives unbalanced; a balanced substring that fails to
    parse as JSON gives malformedPayload rather than either of the other
    two.  Each outcome is realized at a concrete input. -/
theorem spec_c8 :
    (∀ html : List Char, extractEmbeddedJson html = ExtractResult.notFound ↔
        ∀ i, markerEndAux (html.drop i) = none) ∧
    (∀ (html : List Char) (s : Nat), findLibdocStart html = some s →
        braceScan (html.drop s) scanInit = none →
        extractEmbeddedJson html = ExtractResult.unbalanced) ∧
    (∀ (html : List Char) (s n : Nat), findLibdocStart html = some s →
        braceScan (html.drop s) scanInit = some n →
        jsonValid ((html.drop s).take n) = false →
        extractEmbeddedJson html = ExtractResult.malformedPayload) ∧
    (ExtractResult.notFound ≠ ExtractResult.unbalanced ∧
     ExtractResult.notFound ≠ ExtractResult.malformedPayload ∧
     ExtractResult.unbalanced ≠ ExtractResult.malformedPayload ∧
     ∀ p : List Char, ExtractResult.notFound ≠ ExtractResult.ok p ∧
       ExtractResult.unbalanced ≠ ExtractResult.ok p ∧
       ExtractResult.malformedPayload ≠ ExtractResult.ok p) ∧
    (extractEmbeddedJson c8NoMarker = ExtractResult.notFound ∧
     extractEmbeddedJson c8Unclosed = ExtractResult.unbalanced ∧
     extractEmbeddedJson c8BadJson = ExtractResult.malformedPayload ∧
     extractEmbeddedJson c8Good = ExtractResult.ok c8GoodPayload) := by
  refine ⟨?_, ?_, ?_, ?_, ?_⟩
  · intro html
    constructor
    · intro h
      cases hf : findLibdocStart html with
      | none => exact (findStartAux_none html 0).mp hf
      | some s =>
        exfalso
        cases hb : braceScan (html.drop s) scanInit with
        | none => simp [extractEmbeddedJson, hf, hb] at h
        | some n =>
          by_cases hv : jsonValid ((html.drop s).take n) <;>
            simp [extractEmbeddedJson, hf, hb, hv] at h
    · intro hall
      have hnone : findLibdocStart html = none := (findStartAux_none html 0).mpr hall
      simp [extractEmbeddedJson, hnone]
  · intro html s hs hb
    simp [extractEmbeddedJson, hs, hb]
  · intro html s n hs hb hv
    simp [extractEmbeddedJson, hs, hb, hv]
  · exact ⟨by simp, by simp, by simp, fun p => ⟨by simp, by simp, by simp⟩⟩
  · exact ⟨by decide, by decide, by decide, by decide⟩

/-- Witness for C8: the unbalanced and malformed branches discharged at
    concrete inputs. -/
theorem spec_c8_witness :
    extractEmbeddedJson c8Unclosed = ExtractResult.unbalanced ∧
    extractEmbeddedJson c8BadJson = ExtractResult.malformedPayload :=
  ⟨spec_c8.2.1 c8Unclosed 9 (by decide) (by decide),
   spec_c8.2.2.1 c8BadJson 9 3 (by decide) (by decide) (by decide)⟩

/-! ## Search engine (search_rf_documentation, rf_docs_server.py 389-445) -/

/-- One entry of the results list built by search_rf_documentation. -/
structure SearchResult where
  title : String
  sid : String
  level : Nat
  relevance : Nat
  contentPreview : String
  url : String
deriving DecidableEq

/-- RF_DOCS_URL constant. -/
def RF_DOCS_URL : String :=
  "https://robotframework.org/robotframework/7.4.1/RobotFrameworkUserGuide.html"

/-- The filter condition: title_matches > 0 or content_matches > 0, with
    matches counted on the lowercased title / content against the lowercased
    query. -/
def sectionMatches (q : String) (s : DocSection) : Bool :=
  decide (0 < pyCount (pyLower s.title) (pyLower q)) ||
  decide (0 < pyCount (pyLower s.content) (pyLower q))

/-- The result record appended for a matching section: relevance is
    title_matches * 10 + content_matches; the preview is the first 300
    characters of the content with an unconditional ellipsis. -/
def mkSearchResult (q : String) (s : DocSection) : SearchResult :=
  { title := s.title, sid := s.sid, level := s.level,
    relevance := pyCount (pyLower s.title) (pyLower q) * 10 +
      pyCount (pyLower s.content) (pyLower q),
    contentPreview := pyTake 300 s.content ++ "...",
    url := RF_DOCS_URL ++ "#" ++ s.sid }

/-- The unsorted results list: one record per matching section, in section
    order. -/
def searchMatchList (q : String) (sections : List DocSection) : List SearchResult :=
  sections.filterMap (fun s =>
    if sectionMatches q s then some (mkSearchResult q s) else none)

/-- Stable insertion for the descending sort: the inserted element, which
    comes from earlier in the original list than everything already present,
    goes before the first element whose relevance does not exceed it. -/
def insertByRel (r : SearchResult) : List SearchResult → List SearchResult
  | [] => [r]
  | x :: xs => if r.relevance < x.relevance then x :: insertByRel r xs else r :: x :: xs

/-- results.sort(key=lambda x: x["relevance"], reverse=True): Python
    specifies this as a stable descending sort; any stable sort computes the
    same list, and insertion sort is proved sorted and stable below. -/
def sortByRelDesc : List SearchResult → List SearchResult
  | [] => []
  | x :: xs => insertByRel x (sortByRelDesc xs)

/-- The dict returned by search_rf_documentation: total_matches is the
    pre-cap count, results is capped at max_results. -/
structure SearchResponse where
  totalMatches : Nat
  results : List SearchResult
deriving DecidableEq

/-- The fully ranked (uncapped) results list. -/
def searchRanked (q : String) (sections : List DocSection) : List SearchResult :=
  sortByRelDesc (searchMatchList q sections)

/-- search_rf_documentation(query, max_results) over a parsed section
    index. -/
def searchRFDocumentation (q : String) (maxResults : Nat)
    (sections : List DocSection) : SearchResponse :=
  { totalMatches := (searchRanked q sections).length,
    results := (searchRanked q sections).take maxResults }

/-! Helper lemmas: occurrence counting and the stable sort. -/

theorem isPrefixOf_iff (sub s : List Char) :
    sub.isPrefixOf s = true ↔ ∃ t, sub ++ t = s := by
  induction sub generalizing s with
  | nil => simp [List.isPrefixOf]
  | cons a as ih =>
    cases s with
    | nil => simp [List.isPrefixOf]
    | cons b bs =>
      simp only [List.isPrefixOf, Bool.and_eq_true, beq_iff_eq, ih,
        List.cons_append, List.cons.injEq]
      constructor
      · rintro ⟨rfl, t, rfl⟩
        exact ⟨t, rfl, rfl⟩
      · rintro ⟨t, rfl, rfl⟩
        exact ⟨rfl, t, rfl⟩

theorem occursIn_nil_iff (sub : List Char) : OccursIn sub [] ↔ sub = [] := by
  constructor
  · rintro ⟨pre, post, h⟩
    rcases List.append_eq_nil.mp h with ⟨h1, h2⟩
    rcases List.append_eq_nil.mp h1 with ⟨h3, h4⟩
    exact h4
  · rintro rfl
    exact ⟨[], [], rfl⟩

theorem occursIn_cons_iff (sub : List Char) (c : Char) (rest : List Char)
    (hp : sub.isPrefixOf (c :: rest) = false) :
    OccursIn sub (c :: rest) ↔ OccursIn sub rest := by
  constructor
  · rintro ⟨pre, post, h⟩
    cases pre with
    | nil =>
      exfalso
      rw [List.nil_append] at h
      have hpre : sub.isPrefixOf (c :: rest) = true :=
        (isPrefixOf_iff sub (c :: rest)).mpr ⟨post, h⟩
      rw [hp] at hpre
      exact Bool.false_ne_true hpre
    | cons p pre2 =>
      rw [List.cons_append, List.cons_append] at h
      injection h with h1 h2
      exact ⟨pre2, post, h2⟩
  · rintro ⟨pre, post, h⟩
    exact ⟨c :: pre, post, by rw [List.cons_append, List.cons_append, h]⟩

theorem pyCountAux_pos_iff (fuel : Nat) (s sub : List Char) (hsub : sub ≠ [])
    (hfuel : s.length ≤ fuel) :
    0 < pyCountAux fuel s sub ↔ OccursIn sub s := by
  induction fuel generalizing s with
  | zero =>
    have hs : s = [] := List.length_eq_zero.mp (Nat.le_zero.mp hfuel)
    subst hs
    simp [pyCountAux, occursIn_nil_iff, hsub]
  | succ fuel ih =>
    cases s with
    | nil => simp [pyCountAux, occursIn_nil_iff, hsub]
    | cons c rest =>
      cases hp : sub.isPrefixOf (c :: rest) with
      | true =>
        simp only [pyCountAux, hp, if_true]
        constructor
        · intro _
          obtain ⟨t, ht⟩ := (isPrefixOf_iff sub (c :: rest)).mp hp
          exact ⟨[], t, by rw [List.nil_append, ht]⟩
        · intro _
          exact Nat.succ_pos _
      | false =>
        have hrest : rest.length ≤ fuel := by
          simp only [List.length_cons] at hfuel
          omega
        simp only [pyCountAux, hp, Bool.false_eq_true, if_false]
        rw [occursIn_cons_iff sub c rest hp]
        exact ih rest hrest

theorem pyCountL_pos_iff (s sub : List Char) :
    0 < pyCountL s sub ↔ OccursIn sub s := by
  cases hsub : sub.isEmpty with
  | true =>
    have hnil : sub = [] := by
      cases sub with
      | nil => rfl
      | cons a as => simp [List.isEmpty_cons] at hsub
    subst hnil
    rw [show pyCountL s [] = s.length + 1 from rfl]
    constructor
    · intro _
      exact ⟨[], s, rfl⟩
    · intro _
      exact Nat.succ_pos _
  | false =>
    have hne : sub ≠ [] := by
      intro h
      subst h
      simp at hsub
    rw [pyCountL, if_neg (by rw [hsub]; exact Bool.false_ne_true)]
    exact pyCountAux_pos_iff s.length s sub hne le_rfl

theorem mem_insertByRel (r x : SearchResult) (l : List SearchResult) :
    x ∈ insertByRel r l ↔ x = r ∨ x ∈ l := by
  induction l with
  | nil => simp [insertByRel]
  | cons y ys ih =>
    simp only [insertByRel]
    by_cases h : r.relevance < y.relevance
    · rw [if_pos h]
      simp only [List.mem_cons, ih]
      tauto
    · rw [if_neg h]
      simp only [List.mem_cons]

theorem mem_sortByRelDesc (x : SearchResult) (l : List SearchResult) :
    x ∈ sortByRelDesc l ↔ x ∈ l := by
  induction l with
  | nil => simp [sortByRelDesc]
  | cons y ys ih =>
    show x ∈ insertByRel y (sortByRelDesc ys) ↔ _
    rw [mem_insertByRel]
    simp [ih]

theorem pairwise_insertByRel (r : SearchResult) (l : List SearchResult)
    (h : List.Pairwise (fun a b => b.relevance ≤ a.relevance) l) :
    List.Pairwise (fun a b => b.relevance ≤ a.relevance) (insertByRel r l) := by
  induction l with
  | nil => simp [insertByRel]
  | cons y ys ih =>
    rw [List.pairwise_cons] at h
    obtain ⟨hy, hys⟩ := h
    by_cases hlt : r.relevance < y.relevance
    · rw [insertByRel, if_pos hlt, List.pairwise_cons]
      refine ⟨?_, ih hys⟩
      intro z hz
      rcases (mem_insertByRel r z ys).mp hz with rfl | hzys
      · exact Nat.le_of_lt hlt
      · exact hy z hzys
    · rw [insertByRel, if_neg hlt, List.pairwise_cons]
      refine ⟨?_, List.pairwise_cons.mpr ⟨hy, hys⟩⟩
      intro z hz
      rcases List.mem_cons.mp hz with rfl | hzys
      · exact Nat.le_of_not_lt hlt
      · exact Nat.le_trans (hy z hzys) (Nat.le_of_not_lt hlt)

theorem pairwise_sortByRelDesc (l : List SearchResult) :
    List.Pairwise (fun a b => b.relevance ≤ a.relevance) (sortByRelDesc l) := by
  induction l with
  | nil => simp [sortByRelDesc]
  | cons x xs ih => exact pairwise_insertByRel x _ ih

theorem filter_insertByRel (r : SearchResult) (l : List SearchResult) (k : Nat) :
    (insertByRel r l).filter (fun a => a.relevance == k) =
      if r.relevance = k then r :: l.filter (fun a => a.relevance == k)
      else l.filter (fun a => a.relevance == k) := by
  induction l with
  | nil =>
    by_cases h : r.relevance = k <;> simp [insertByRel, List.filter_cons, h]
  | cons y ys ih =>
    by_cases hlt : r.relevance < y.relevance
    · rw [insertByRel, if_pos hlt]
      by_cases hyk : y.relevance = k
      · have hrk : ¬ r.relevance = k := by omega
        simp [List.filter_cons, hyk, hrk, ih]
      · simp [List.filter_cons, hyk, ih]
    · rw [insertByRel, if_neg hlt]
      by_cases hrk : r.relevance = k <;>
        by_cases hyk : y.relevance = k <;>
          simp [List.filter_cons, hrk, hyk]

theorem filter_sortByRelDesc (l : List SearchResult) (k : Nat) :
    (sortByRelDesc l).filter (fun a => a.relevance == k) =
      l.filter (fun a => a.relevance == k) := by
  induction l with
  | nil => rfl
  | cons x xs ih =>
    show (insertByRel x (sortByRelDesc xs)).filter _ = _
    rw [filter_insertByRel]
    by_cases h : x.relevance = k <;> simp [List.filter_cons, h, ih]

theorem length_insertByRel (r : SearchResult) (l : List SearchResult) :
    (insertByRel r l).length = l.length + 1 := by
  induction l with
  | nil => rfl
  | cons y ys ih =>
    by_cases h : r.relevance < y.relevance <;> simp [insertByRel, h, ih]

theorem length_sortByRelDesc (l : List SearchResult) :
    (sortByRelDesc l).length = l.length := by
  induction l with
  | nil => rfl
  | cons x xs ih =>
    show (insertByRel x (sortByRelDesc xs)).length = _
    rw [length_insertByRel, ih, List.length_cons]

theorem searchMatchList_eq_filter_map (q : String) (sections : List DocSection) :
    searchMatchList q sections =
      (sections.filter (sectionMatches q)).map (mkSearchResult q) := by
  induction sections with
  | nil => rfl
  | cons s ss ih =>
    by_cases h : sectionMatches q s = true <;>
      simp [searchMatchList, List.filterMap_cons, List.filter_cons, h] <;>
        exact ih

/-- The spec example index: two sections scoring 11 and 2 for query run. -/
def c3Sections : List DocSection :=
  [{ sid := "s1", level := 2, title := "Run Keyword", content := "run a keyword" },
   { sid := "s2", level := 3, title := "x", content := "run run" }]

/-- C3: every returned result carries relevance 10 * occurrences in the
    case-folded title + occurrences in the case-folded content of some
    section; the result list is sorted by relevance descending; results of
    equal relevance keep original document order (the filtered sublist at
    each relevance value is unchanged by the sort); and the two-section
    example with query run scores 11 and 2 and is ordered accordingly. -/
theorem spec_c3 :
    (∀ (q : String) (sections : List DocSection),
        ∀ r ∈ searchRanked q sections, ∃ s ∈ sections,
          r.title = s.title ∧
          r.relevance = pyCount (pyLower s.title) (pyLower q) * 10 +
            pyCount (pyLower s.content) (pyLower q)) ∧
    (∀ (q : String) (sections : List DocSection),
        List.Pairwise (fun a b => b.relevance ≤ a.relevance) (searchRanked q sections)) ∧
    (∀ (q : String) (sections : List DocSection) (k : Nat),
        (searchRanked q sections).filter (fun r => r.relevance == k) =
          (searchMatchList q sections).filter (fun r => r.relevance == k)) ∧
    searchRFDocumentation "run" 10 c3Sections =
      { totalMatches := 2,
        results :=
          [{ title := "Run Keyword", sid := "s1", level := 2, relevance := 11,
             contentPreview := "run a keyword...", url := RF_DOCS_URL ++ "#s1" },
           { title := "x", sid := "s2", level := 3, relevance := 2,
             contentPreview := "run run...", url := RF_DOCS_URL ++ "#s2" }] } := by
  refine ⟨?_, ?_, ?_, by decide⟩
  · intro q sections r hr
    have hr2 : r ∈ searchMatchList q sections :=
      (mem_sortByRelDesc r (searchMatchList q sections)).mp hr
    rw [searchMatchList, List.mem_filterMap] at hr2
    obtain ⟨s, hs, hf⟩ := hr2
    by_cases hm : sectionMatches q s = true
    · rw [if_pos hm] at hf
      injection hf with hf
      exact ⟨s, hs, by rw [← hf]; rfl, by rw [← hf]; rfl⟩
    · rw [if_neg hm] at hf
      exact absurd hf (by simp)
  · intro q sections
    exact pairwise_sortByRelDesc (searchMatchList q sections)
  · intro q sections k
    exact filter_sortByRelDesc (searchMatchList q sections) k

/-- Witness for C3: the first result of the example run carries the score of
    the Run Keyword section. -/
theorem spec_c3_witness :
    ∃ s ∈ c3Sections, ("Run Keyword" : String) = s.title ∧
      (11 : Nat) = pyCount (pyLower s.title) (pyLower "run") * 10 +
        pyCount (pyLower s.content) (pyLower "run") :=
  spec_c3.1 "run" c3Sections
    { title := "Run Keyword", sid := "s1", level := 2, relevance := 11,
      contentPreview := "run a keyword...", url := RF_DOCS_URL ++ "#s1" }
    (by decide)

theorem sectionMatches_empty (s : DocSection) : sectionMatches "" s = true := by
  have h1 : (pyLower "").data = [] := rfl
  simp only [sectionMatches, pyCount, h1, Bool.or_eq_true, decide_eq_true_eq]
  left
  rw [show pyCountL (pyLower s.title).data [] = (pyLower s.title).data.length + 1 from rfl]
  exact Nat.succ_pos _

/-- C9: a section is kept by the search filter exactly when the case-folded
    query occurs as a substring of the case-folded title or content; the
    match list keeps exactly the matching sections in order; and the empty
    query, which occurs in every string, matches every section. -/
theorem spec_c9 :
    (∀ (q : String) (s : DocSection), sectionMatches q s = true ↔
        (OccursIn (pyLower q).data (pyLower s.title).data ∨
         OccursIn (pyLower q).data (pyLower s.content).data)) ∧
    (∀ (q : String) (sections : List DocSection),
        searchMatchList q sections =
          (sections.filter (sectionMatches q)).map (mkSearchResult q)) ∧
    (∀ sections : List DocSection,
        searchMatchList "" sections = sections.map (mkSearchResult "")) ∧
    (∀ sections : List DocSection,
        (searchRFDocumentation "" sections.length sections).totalMatches =
          sections.length) := by
  have hemptyList : ∀ sections : List DocSection,
      searchMatchList "" sections = sections.map (mkSearchResult "") := by
    intro sections
    rw [searchMatchList_eq_filter_map,
      List.filter_eq_self.mpr (fun s _ => sectionMatches_empty s)]
  refine ⟨?_, searchMatchList_eq_filter_map, hemptyList, ?_⟩
  · intro q s
    simp only [sectionMatches, Bool.or_eq_true, decide_eq_true_eq]
    exact or_congr (pyCountL_pos_iff _ _) (pyCountL_pos_iff _ _)
  · intro sections
    show (searchRanked "" sections).length = _
    rw [searchRanked, length_sortByRelDesc, hemptyList, List.length_map]

/-! ## Keyword records and keyword lookup (get_keyword_documentation,
    rf_docs_server.py 589-650) -/

/-- A parsed JSON value, as produced by json.loads (objects keep key order;
    the numbers in every input considered here are integral). -/
inductive Json where
  | null
  | bool (b : Bool)
  | num (n : Int)
  | str (s : String)
  | arr (elems : List Json)
  | obj (fields : List (String × Json))

/-- The normalized keyword record built by _parse_library_keywords.  The
    field kid models the dict key id (the name with spaces percent-encoded);
    source and lineno hold the raw JSON values the code stores without
    conversion. -/
structure KeywordRecord where
  name : String
  kid : String
  args : String
  doc : String
  library : String
  source : Json
  lineno : Json

/-- keyword_name.lower().replace(underscore, space).replace(hyphen, space):
    the normal form applied to the query and to every stored candidate. -/
def normKwName (s : String) : String :=
  pyReplace (pyReplace (pyLower s) "_" " ") "-" " "

/-- Outcome of get_keyword_documentation: the named library is absent from
    the index, or a keyword was found in a library, or no keyword matched. -/
inductive LookupResult where
  | libNotFound (available : List String)
  | found (library : String) (keyword : String) (record : KeywordRecord)
  | notFound

/-- The nested loop over libraries_to_search.items() and keywords.items():
    the first stored keyword whose normal form equals the normalized query
    wins, in library order then insertion order. -/
def lookupInLibs (libs : List (String × List (String × KeywordRecord)))
    (qn : String) : LookupResult :=
  match libs with
  | [] => .notFound
  | (ln, kws) :: rest =>
    match kws.find? (fun p => normKwName p.1 == qn) with
    | some p => .found ln p.1 p.2
    | none => lookupInLibs rest qn

/-- get_keyword_documentation(keyword_name, library_name) over the keyword
    snapshot, given as an ordered association list library name -> ordered
    keyword name -> record. -/
def getKeywordDocumentation (libs : List (String × List (String × KeywordRecord)))
    (keywordName : String) (libraryName : Option String) : LookupResult :=
  match libraryName with
  | some ln =>
    match libs.find? (fun e => e.1 == ln) with
    | some entry => lookupInLibs [entry] (normKwName keywordName)
    | none => .libNotFound (libs.map (·.1))
  | none => lookupInLibs libs (normKwName keywordName)

theorem lookupInLibs_eq_find (libs : List (String × List (String × KeywordRecord)))
    (qn : String) :
    lookupInLibs libs qn =
      match (libs.flatMap (fun e => e.2.map (fun p => (e.1, p)))).find?
          (fun t => normKwName t.2.1 == qn) with
      | some t => LookupResult.found t.1 t.2.1 t.2.2
      | none => LookupResult.notFound := by
  induction libs with
  | nil => rfl
  | cons e rest ih =>
    obtain ⟨ln, kws⟩ := e
    have hcomp : ((fun t : String × String × KeywordRecord => normKwName t.2.1 == qn) ∘
        (fun p : String × KeywordRecord => (ln, p))) =
          (fun p : String × KeywordRecord => normKwName p.1 == qn) := by
      funext p
      rfl
    rw [List.flatMap_cons, List.find?_append, List.find?_map, hcomp]
    cases hk : kws.find? (fun p => normKwName p.1 == qn) with
    | some p =>
      rw [show lookupInLibs ((ln, kws) :: rest) qn =
        (match kws.find? (fun p => normKwName p.1 == qn) with
         | some p => LookupResult.found ln p.1 p.2
         | none => lookupInLibs rest qn) from rfl, hk]
      rfl
    | none =>
      rw [show lookupInLibs ((ln, kws) :: rest) qn =
        (match kws.find? (fun p => normKwName p.1 == qn) with
         | some p => LookupResult.found ln p.1 p.2
         | none => lookupInLibs rest qn) from rfl, hk]
      exact ih

/-- Example store: one library holding the keyword Get Length. -/
def c4Rec : KeywordRecord :=
  { name := "Get Length", kid := "Get%20Length", args := "container",
    doc := "Returns the length.", library := "String",
    source := Json.str "String.py", lineno := Json.num 101 }

def c4Store : List (String × List (String × KeywordRecord)) :=
  [("String", [("Get Length", c4Rec)])]

/-- Store whose only keyword merely CONTAINS the query as a substring. -/
def c4RecExtra : KeywordRecord :=
  { name := "Get Length Extra", kid := "Get%20Length%20Extra", args := "",
    doc := "", library := "String", source := Json.str "", lineno := Json.num 1 }

def c4SubstrStore : List (String × List (String × KeywordRecord)) :=
  [("String", [("Get Length Extra", c4RecExtra)])]

/-- Store with two keywords of equal normal form in different libraries. -/
def c4RecB : KeywordRecord :=
  { name := "Get_Length", kid := "Get_Length", args := "item",
    doc := "Dup.", library := "BuiltIn", source := Json.str "", lineno := Json.num 2 }

def c4DupStore : List (String × List (String × KeywordRecord)) :=
  [("BuiltIn", [("Get_Length", c4RecB)]), ("String", [("Get Length", c4Rec)])]

/-- C4: keyword lookup resolves to the FIRST stored keyword, in library order
    then insertion order, whose lowercased, separator-normalized name equals
    that of the query, and only on exact equality of the normal forms: a
    candidate that merely contains the query is not found, and the queries
    get_length, Get-Length and get length all resolve to Get Length. -/
theorem spec_c4 :
    (∀ (libs : List (String × List (String × KeywordRecord))) (q : String),
        getKeywordDocumentation libs q none =
          match (libs.flatMap (fun e => e.2.map (fun p => (e.1, p)))).find?
              (fun t => normKwName t.2.1 == normKwName q) with
          | some t => LookupResult.found t.1 t.2.1 t.2.2
          | none => LookupResult.notFound) ∧
    (∀ (libs : List (String × List (String × KeywordRecord))) (q lib k : String)
        (r : KeywordRecord),
        getKeywordDocumentation libs q none = LookupResult.found lib k r →
        normKwName k = normKwName q) ∧
    (getKeywordDocumentation c4Store "get_length" none =
        LookupResult.found "String" "Get Length" c4Rec ∧
     getKeywordDocumentation c4Store "Get-Length" none =
        LookupResult.found "String" "Get Length" c4Rec ∧
     getKeywordDocumentation c4Store "get length" none =
        LookupResult.found "String" "Get Length" c4Rec ∧
     getKeywordDocumentation c4SubstrStore "get_length" none = LookupResult.notFound ∧
     getKeywordDocumentation c4DupStore "get length" none =
        LookupResult.found "BuiltIn" "Get_Length" c4RecB) := by
  have key : ∀ (libs : List (String × List (String × KeywordRecord))) (q : String),
      getKeywordDocumentation libs q none =
        match (libs.flatMap (fun e => e.2.map (fun p => (e.1, p)))).find?
            (fun t => normKwName t.2.1 == normKwName q) with
        | some t => LookupResult.found t.1 t.2.1 t.2.2
        | none => LookupResult.notFound := by
    intro libs q
    exact lookupInLibs_eq_find libs (normKwName q)
  refine ⟨key, ?_, by rfl, by rfl, by rfl, by rfl, by rfl⟩
  intro libs q lib k r h
  rw [key libs q] at h
  cases hf : (libs.flatMap (fun e => e.2.map (fun p => (e.1, p)))).find?
      (fun t => normKwName t.2.1 == normKwName q) with
  | none =>
    rw [hf] at h
    exact absurd h (by simp)
  | some t =>
    rw [hf] at h
    have hp := List.find?_some hf
    injection h with h1 h2 h3
    rw [← h2]
    exact eq_of_beq hp

/-- Witness for C4: the exact-equality consequence discharged on the example
    store. -/
theorem spec_c4_witness :
    normKwName "Get Length" = normKwName "get_length" :=
  spec_c4.2.1 c4Store "get_length" "String" "Get Length" c4Rec (by rfl)

/-! ## Multi-library refresh (fetch_rf_documentation, rf_docs_server.py
    301-386), modelled as a pure function of the collaborator outcomes. -/

/-- Outcome of _parse_library_keywords for one library whose file exists. -/
inductive LibParseOutcome where
  | parsed (count : Nat)
  | failed
deriving DecidableEq

/-- keywords_result.get("success", False). -/
def parseSuccess : LibParseOutcome → Bool
  | .parsed _ => true
  | .failed => false

/-- keywords_result.get("total_keywords", 0): the failure dicts carry no
    total_keywords key, so they read as 0. -/
def parseTotal : LibParseOutcome → Nat
  | .parsed n => n
  | .failed => 0

/-- External state and collaborator outcomes for one standard library. -/
structure LibEnv where
  name : String
  cached : Bool
  download : Bool
  parse : LibParseOutcome
deriving DecidableEq

/-- External state and collaborator outcomes for a whole refresh cycle. -/
structure FetchEnv where
  force : Bool
  docsCached : Bool
  ugDownload : Bool
  libs : List LibEnv
deriving DecidableEq

/-- library_file.exists() after the conditional download: the download is
    attempted when forced or when the file is missing; success writes the
    file, failure leaves the previous state untouched. -/
def libFileExists (force : Bool) (l : LibEnv) : Bool :=
  if force || !l.cached then l.download || l.cached else l.cached

/-- The fields of the result dict populated by the refresh (version,
    cache_location and the user-guide indexing report do not interact with
    the per-library loop and are omitted). -/
structure FetchResults where
  userGuideSuccess : Bool
  filesDownloaded : List String
  libraries : List (String × Bool × Nat)
  totalKeywords : Nat
  indexedLibraries : Nat
  keywordsIndexWritten : Bool
  success : Bool
deriving DecidableEq

/-- One iteration of the loop over STANDARD_LIBRARIES: download when forced
    or missing; then, only if the file exists, parse, record the per-library
    entry, and accumulate the running totals only on parse success. -/
def fetchStep (force : Bool)
    (acc : List String × List (String × Bool × Nat) × Nat × Nat)
    (l : LibEnv) : List String × List (String × Bool × Nat) × Nat × Nat :=
  let files := if (force || !l.cached) && l.download
    then acc.1 ++ [l.name ++ ".html"] else acc.1
  if libFileExists force l then
    (files,
     acc.2.1 ++ [(l.name, parseSuccess l.parse, parseTotal l.parse)],
     acc.2.2.1 + (if parseSuccess l.parse then 1 else 0),
     acc.2.2.2 + (if parseSuccess l.parse then parseTotal l.parse else 0))
  else (files, acc.2.1, acc.2.2.1, acc.2.2.2)

/-- fetch_rf_documentation(force_refresh), as a function of the collaborator
    outcomes: user-guide handling, the per-library loop, and the final
    success flag read back from the user_guide entry. -/
def fetchRFDocumentation (env : FetchEnv) : FetchResults :=
  let ugAttempt := env.force || !env.docsCached
  let ugSuccess := if ugAttempt then env.ugDownload else true
  let ugFiles : List String :=
    if ugAttempt && env.ugDownload then ["RobotFrameworkUserGuide.html"] else []
  let acc := env.libs.foldl (fetchStep env.force) (ugFiles, [], 0, 0)
  { userGuideSuccess := ugSuccess
    filesDownloaded := acc.1
    libraries := acc.2.1
    totalKeywords := acc.2.2.2
    indexedLibraries := acc.2.2.1
    keywordsIndexWritten := acc.2.2.1 != 0
    success := ugSuccess }

/-- Names of the library files a refresh downloads. -/
def libFilesOf (force : Bool) (libs : List LibEnv) : List String :=
  (libs.filter (fun l => (force || !l.cached) && l.download)).map
    (fun l => l.name ++ ".html")

theorem fetchStep_eq (force : Bool)
    (acc : List String × List (String × Bool × Nat) × Nat × Nat) (l : LibEnv) :
    fetchStep force acc l =
      (acc.1 ++ (if (force || !l.cached) && l.download then [l.name ++ ".html"] else []),
       acc.2.1 ++ (if libFileExists force l
         then [(l.name, parseSuccess l.parse, parseTotal l.parse)] else []),
       acc.2.2.1 + (if libFileExists force l && parseSuccess l.parse then 1 else 0),
       acc.2.2.2 + (if libFileExists force l && parseSuccess l.parse
         then parseTotal l.parse else 0)) := by
  cases he : libFileExists force l <;>
    cases hd : (force || !l.cached) && l.download <;>
      cases hp : parseSuccess l.parse <;>
        simp [fetchStep, he, hd, hp]

theorem fetchStep_foldl (force : Bool) (libs : List LibEnv) (files : List String)
    (reports : List (String × Bool × Nat)) (okc tot : Nat) :
    libs.foldl (fetchStep force) (files, reports, okc, tot) =
      (files ++ libFilesOf force libs,
       reports ++ (libs.filter (libFileExists force)).map
         (fun l => (l.name, parseSuccess l.parse, parseTotal l.parse)),
       okc + (libs.filter (fun l => libFileExists force l && parseSuccess l.parse)).length,
       tot + ((libs.filter (fun l => libFileExists force l && parseSuccess l.parse)).map
         (fun l => parseTotal l.parse)).sum) := by
  induction libs generalizing files reports okc tot with
  | nil => simp [libFilesOf]
  | cons l rest ih =>
    rw [List.foldl_cons, fetchStep_eq, ih]
    simp only [libFilesOf, List.filter_cons]
    cases he : libFileExists force l <;>
      cases hd : (force || !l.cached) && l.download <;>
        cases hp : parseSuccess l.parse <;>
          simp [he, hd, hp, List.append_assoc, libFilesOf] <;> omega

/-- The spec scenario: library A downloads but fails to parse, library B is
    cached and parses with 3 keywords; the user guide is cached. -/
def c5Env : FetchEnv :=
  { force := false, docsCached := true, ugDownload := true,
    libs := [{ name := "A", cached := false, download := true,
               parse := LibParseOutcome.failed },
             { name := "B", cached := true, download := false,
               parse := LibParseOutcome.parsed 3 }] }

/-- C5 (amended): one library's failure never aborts the rest; total_keywords
    sums the counts of exactly the libraries whose file exists and whose
    parse succeeded; the per-library map holds one entry per library whose
    file exists after the download step, marked with its parse success (a
    library whose fetch failed leaving no file is OMITTED from the map, not
    marked success false); and the overall success flag equals the
    user-guide outcome regardless of library failures. -/
theorem spec_c5 :
    (∀ env : FetchEnv,
        (fetchRFDocumentation env).libraries =
          (env.libs.filter (libFileExists env.force)).map
            (fun l => (l.name, parseSuccess l.parse, parseTotal l.parse))) ∧
    (∀ env : FetchEnv,
        (fetchRFDocumentation env).totalKeywords =
          ((env.libs.filter (fun l => libFileExists env.force l &&
              parseSuccess l.parse)).map (fun l => parseTotal l.parse)).sum) ∧
    (∀ env : FetchEnv,
        (fetchRFDocumentation env).success = (fetchRFDocumentation env).userGuideSuccess ∧
        (fetchRFDocumentation env).userGuideSuccess =
          (if env.force || !env.docsCached then env.ugDownload else true)) ∧
    fetchRFDocumentation c5Env =
      { userGuideSuccess := true,
        filesDownloaded := ["A.html"],
        libraries := [("A", false, 0), ("B", true, 3)],
        totalKeywords := 3,
        indexedLibraries := 1,
        keywordsIndexWritten := true,
        success := true } := by
  refine ⟨?_, ?_, ?_, by decide⟩
  · intro env
    show (env.libs.foldl (fetchStep env.force) _).2.1 = _
    rw [fetchStep_foldl]
    simp
  · intro env
    show (env.libs.foldl (fetchStep env.force) _).2.2.2 = _
    rw [fetchStep_foldl]
    simp
  · intro env
    exact ⟨rfl, rfl⟩

/-- A refresh in which library A is absent from the cache and its download
    fails, while library B is cached and parses. -/
def c5FetchFailEnv : FetchEnv :=
  { force := false, docsCached := true, ugDownload := true,
    libs := [{ name := "A", cached := false, download := false,
               parse := LibParseOutcome.parsed 5 },
             { name := "B", cached := true, download := false,
               parse := LibParseOutcome.parsed 3 }] }

/-- C5 counterexample: when library A's fetch fails and leaves no file, the
    per-library result map contains NO entry for A at all, contradicting the
    claim that every failed library is marked success:false in the map. -/
theorem spec_c5_counterexample :
    (fetchRFDocumentation c5FetchFailEnv).libraries = [("B", true, 3)] ∧
    ((fetchRFDocumentation c5FetchFailEnv).libraries.find?
      (fun e => e.1 == "A")) = none := by
  exact ⟨by decide, by decide⟩

/-! ## Keyword normalizer (_parse_library_keywords, rf_docs_server.py
    252-288): from the loaded libdoc JSON value to the keyword mapping. -/

/-- dict.get(key, default) on a parsed JSON object: the last binding of a
    key wins (json.loads keeps the last of duplicate keys). -/
def jsonGetD (fields : List (String × Json)) (k : String) (d : Json) : Json :=
  (fields.foldl (fun acc p => if p.1 = k then some p.2 else acc) none).getD d

/-- Python truthiness of a parsed JSON value: None, False, 0, and the empty
    string, list or dict are falsy. -/
def pyFalsy : Json → Bool
  | .null => true
  | .bool b => !b
  | .num n => n == 0
  | .str s => s.isEmpty
  | .arr l => l.isEmpty
  | .obj l => l.isEmpty

/-- re.sub of the tag pattern with the empty string: delete every span of an
    opening angle bracket, at least one character that is no closing angle
    bracket, and the first closing angle bracket; a position that cannot
    match is emitted and scanning resumes at the next one.  Fuel-indexed;
    stripTags passes the input length, which is always sufficient. -/
def stripTagsAux : Nat → List Char → List Char
  | 0, s => s
  | Nat.succ fuel, s =>
    match s with
    | [] => []
    | c :: rest =>
      if c = '<' then
        match rest.findIdx? (fun x => x = '>') with
        | some j =>
          if 1 ≤ j then stripTagsAux fuel (rest.drop (j + 1))
          else c :: stripTagsAux fuel rest
        | none => c :: stripTagsAux fuel rest
      else c :: stripTagsAux fuel rest

/-- doc = re.sub(tag pattern, empty, doc). -/
def stripTags (cs : List Char) : List Char := stripTagsAux cs.length cs

/-- re.sub of the double-backtick pattern with its group: rewrite every span
    of two backticks, at least one non-backtick character, and two closing
    backticks to the inner characters; a position that cannot match is
    emitted and scanning resumes at the next one. -/
def collapseBackticksAux : Nat → List Char → List Char
  | 0, s => s
  | Nat.succ fuel, s =>
    match s with
    | [] => []
    | c :: rest =>
      if c = '\x60' then
        match rest with
        | c2 :: rest2 =>
          if c2 = '\x60' then
            let inner := rest2.takeWhile (fun x => x ≠ '\x60')
            if 1 ≤ inner.length then
              match rest2.drop inner.length with
              | d1 :: d2 :: rest4 =>
                if d1 = '\x60' && d2 = '\x60' then
                  inner ++ collapseBackticksAux fuel rest4
                else c :: collapseBackticksAux fuel rest
              | _ => c :: collapseBackticksAux fuel rest
            else c :: collapseBackticksAux fuel rest
          else c :: collapseBackticksAux fuel rest
        | [] => [c]
      else c :: collapseBackticksAux fuel rest

/-- doc = re.sub(double-backtick pattern, group 1, doc). -/
def collapseBackticks (cs : List Char) : List Char :=
  collapseBackticksAux cs.length cs

/-- The loop over kw_data.get("args", []): collect each argument's repr when
    it is a non-empty string; a falsy repr is skipped; an argument without
    dict shape, or a truthy repr that is no string (which would make the
    final join raise), fails the whole library with the generic handler. -/
def collectArgReprs : List Json → Except String (List String)
  | [] => .ok []
  | a :: rest =>
    match a with
    | .obj f =>
      let r := jsonGetD f "repr" (.str "")
      if pyFalsy r then collectArgReprs rest
      else
        match r with
        | .str s =>
          match collectArgReprs rest with
          | .ok l => .ok (s :: l)
          | .error e => .error e
        | _ => .error "Parsing error"
    | _ => .error "Parsing error"

/-- One iteration of the keyword loop: skip entries whose name is falsy
    (missing or empty); otherwise build the record from the args reprs, the
    tag- and backtick-stripped shortdoc, the percent-encoded id, and the raw
    source / lineno values.  Shapes the Python code cannot process (a
    non-dict entry, a truthy non-string name or shortdoc, a non-iterable
    args value) raise and are caught by the outer generic handler; an empty
    string or empty dict in args iterates zero times and is harmless. -/
def normalizeKeywordEntry (libraryName : String) (kw : Json) :
    Except String (Option (String × KeywordRecord)) :=
  match kw with
  | .obj fields =>
    let nameJ := jsonGetD fields "name" (.str "")
    if pyFalsy nameJ then .ok none
    else
      match nameJ with
      | .str name =>
        let argsRes : Except String (List String) :=
          match jsonGetD fields "args" (.arr []) with
          | .arr args => collectArgReprs args
          | .str s => if s.isEmpty then .ok [] else .error "Parsing error"
          | .obj l => if l.isEmpty then .ok [] else .error "Parsing error"
          | _ => .error "Parsing error"
        match argsRes with
        | .error e => .error e
        | .ok argParts =>
          match jsonGetD fields "shortdoc" (.str "") with
          | .str sd =>
            .ok (some (name,
              { name := name
                kid := pyReplace name " " "%20"
                args := String.intercalate ", " argParts
                doc := String.mk (collapseBackticks (stripTags sd.data))
                library := libraryName
                source := jsonGetD fields "source" (.str "")
                lineno := jsonGetD fields "lineno" (.str "") }))
          | _ => .error "Parsing error"
      | _ => .error "Parsing error"
  | _ => .error "Parsing error"

/-- keywords[name] = record: Python dict assignment replaces the value in
    place when the key exists, else appends at the end. -/
def pyDictInsert (d : List (String × KeywordRecord)) (k : String)
    (v : KeywordRecord) : List (String × KeywordRecord) :=
  if d.any (fun p => p.1 == k) then
    d.map (fun p => if p.1 == k then (k, v) else p)
  else d ++ [(k, v)]

/-- The loop over libdoc_data.get("keywords", []). -/
def processKeywords (libraryName : String) :
    List Json → List (String × KeywordRecord) →
    Except String (List (String × KeywordRecord))
  | [], acc => .ok acc
  | kw :: rest, acc =>
    match normalizeKeywordEntry libraryName kw with
    | .error e => .error e
    | .ok none => processKeywords libraryName rest acc
    | .ok (some (n, r)) => processKeywords libraryName rest (pyDictInsert acc n r)

/-- Lines 252-288: from the loaded libdoc JSON value to the keyword mapping
    (insertion-ordered association list standing for the Python dict). -/
def parseKeywordsFromJson (libraryName : String) (libdoc : Json) :
    Except String (List (String × KeywordRecord)) :=
  match libdoc with
  | .obj fields =>
    match jsonGetD fields "keywords" (.arr []) with
    | .arr kws => processKeywords libraryName kws []
    | .str s => if s.isEmpty then .ok [] else .error "Parsing error"
    | .obj l => if l.isEmpty then .ok [] else .error "Parsing error"
    | _ => .error "Parsing error"
  | _ => .error "Parsing error"

/-- A well-shaped keyword entry of the libdoc payload, as the claim describes
    it: a name, argument reprs, a shortdoc, and the carried-through source
    and lineno values. -/
structure KwEntryView where
  name : String
  argReprs : List String
  shortdoc : String
  source : Json
  lineno : Json

def encodeArg (r : String) : Json := .obj [("repr", .str r)]

def encodeKw (e : KwEntryView) : Json :=
  .obj [("name", .str e.name), ("args", .arr (e.argReprs.map encodeArg)),
        ("shortdoc", .str e.shortdoc), ("source", e.source), ("lineno", e.lineno)]

def encodeLibdoc (entries : List KwEntryView) : Json :=
  .obj [("keywords", .arr (entries.map encodeKw))]

/-- The record the claim describes: args is the comma-join of the non-empty
    reprs, doc is the shortdoc with tags deleted and then double-backtick
    spans unwrapped, the id is the name with every space replaced by the
    three-character percent encoding. -/
def specRecord (libraryName : String) (e : KwEntryView) : KeywordRecord :=
  { name := e.name
    kid := pyReplace e.name " " "%20"
    args := String.intercalate ", " (e.argReprs.filter (fun r => r ≠ ""))
    doc := String.mk (collapseBackticks (stripTags e.shortdoc.data))
    library := libraryName
    source := e.source
    lineno := e.lineno }

/-- The claim-side normalizer: skip entries with empty name, build one
    record per kept entry, last duplicate name winning in place. -/
def specNormalize (libraryName : String) (entries : List KwEntryView) :
    List (String × KeywordRecord) :=
  entries.foldl
    (fun acc e => if e.name = "" then acc
      else pyDictInsert acc e.name (specRecord libraryName e)) []

theorem string_isEmpty_iff (s : String) : s.isEmpty = true ↔ s = "" := by
  cases s with
  | mk data =>
    cases data with
    | nil => simp [String.isEmpty]
    | cons a as =>
      constructor
      · intro h
        exfalso
        simp only [String.isEmpty, String.endPos, String.utf8ByteSize, beq_iff_eq] at h
        have h2 : String.utf8Len as + a.utf8Size = 0 := congrArg String.Pos.byteIdx h
        have h3 : 0 < a.utf8Size := Char.utf8Size_pos a
        omega
      · intro h
        have h2 := congrArg String.data h
        simp at h2

theorem collectArgReprs_encode (rs : List String) :
    collectArgReprs (rs.map encodeArg) = .ok (rs.filter (fun r => r ≠ "")) := by
  induction rs with
  | nil => rfl
  | cons r rs ih =>
    have hget : jsonGetD [("repr", Json.str r)] "repr" (Json.str "") = Json.str r := by
      simp [jsonGetD]
    simp only [List.map_cons, collectArgReprs, encodeArg, hget, pyFalsy, List.filter_cons]
    cases hr : r.isEmpty with
    | true =>
      have hreq : r = "" := (string_isEmpty_iff r).mp hr
      subst hreq
      simp [ih]
    | false =>
      have hrne : ¬ r = "" := by
        intro h
        have h2 := (string_isEmpty_iff r).mpr h
        rw [hr] at h2
        exact Bool.false_ne_true h2
      simp [hr, ih, hrne]

theorem normalizeKeywordEntry_encode (lib : String) (e : KwEntryView) :
    normalizeKeywordEntry lib (encodeKw e) =
      .ok (if e.name = "" then none else some (e.name, specRecord lib e)) := by
  obtain ⟨nm, ars, sd, src, ln⟩ := e
  have hname : jsonGetD [("name", Json.str nm), ("args", Json.arr (ars.map encodeArg)),
      ("shortdoc", Json.str sd), ("source", src), ("lineno", ln)] "name" (Json.str "") =
        Json.str nm := by
    simp [jsonGetD]
  have hargs : jsonGetD [("name", Json.str nm), ("args", Json.arr (ars.map encodeArg)),
      ("shortdoc", Json.str sd), ("source", src), ("lineno", ln)] "args" (Json.arr []) =
        Json.arr (ars.map encodeArg) := by
    simp [jsonGetD]
  have hsd : jsonGetD [("name", Json.str nm), ("args", Json.arr (ars.map encodeArg)),
      ("shortdoc", Json.str sd), ("source", src), ("lineno", ln)] "shortdoc" (Json.str "") =
        Json.str sd := by
    simp [jsonGetD]
  have hsrc : jsonGetD [("name", Json.str nm), ("args", Json.arr (ars.map encodeArg)),
      ("shortdoc", Json.str sd), ("source", src), ("lineno", ln)] "source" (Json.str "") =
        src := by
    simp [jsonGetD]
  have hln : jsonGetD [("name", Json.str nm), ("args", Json.arr (ars.map encodeArg)),
      ("shortdoc", Json.str sd), ("source", src), ("lineno", ln)] "lineno" (Json.str "") =
        ln := by
    simp [jsonGetD]
  simp only [normalizeKeywordEntry, encodeKw, hname, hargs, hsd, hsrc, hln, pyFalsy]
  cases hn : nm.isEmpty with
  | true =>
    have hnmeq : nm = "" := (string_isEmpty_iff nm).mp hn
    subst hnmeq
    simp
  | false =>
    have hne : ¬ nm = "" := by
      intro h
      have h2 := (string_isEmpty_iff nm).mpr h
      rw [hn] at h2
      exact Bool.false_ne_true h2
    simp [hne, collectArgReprs_encode, specRecord]

theorem processKeywords_encode (lib : String) (entries : List KwEntryView)
    (acc : List (String × KeywordRecord)) :
    processKeywords lib (entries.map encodeKw) acc =
      .ok (entries.foldl (fun acc e => if e.name = "" then acc
        else pyDictInsert acc e.name (specRecord lib e)) acc) := by
  induction entries generalizing acc with
  | nil => rfl
  | cons e rest ih =>
    simp only [List.map_cons, processKeywords, normalizeKeywordEntry_encode,
      List.foldl_cons]
    by_cases he : e.name = "" <;> simp [he, ih]

/-- Example entry: markup tags and a double-backtick span in the shortdoc,
    one empty repr among the arguments, a space in the name. -/
def c6Entry : KwEntryView :=
  { name := "Should Be", argReprs := ["a", "", "b=1"],
    shortdoc := "<b>Bold</b> \x60\x60Foo Bar\x60\x60 should be",
    source := Json.str "BuiltIn.py", lineno := Json.num 7 }

/-- C6: on every well-shaped libdoc payload the normalizer skips entries with
    missing or empty name, joins the non-empty argument reprs with a comma
    and a space, strips tags and then unwraps double-backtick spans in the
    shortdoc, and percent-encodes the spaces of the name into the id; the
    concrete entry shows all four rules at once. -/
theorem spec_c6 :
    (∀ (lib : String) (entries : List KwEntryView),
        parseKeywordsFromJson lib (encodeLibdoc entries) =
          Except.ok (specNormalize lib entries)) ∧
    parseKeywordsFromJson "BuiltIn" (encodeLibdoc [c6Entry]) =
      Except.ok [("Should Be",
        { name := "Should Be", kid := "Should%20Be", args := "a, b=1",
          doc := "Bold Foo Bar should be", library := "BuiltIn",
          source := Json.str "BuiltIn.py", lineno := Json.num 7 })] := by
  have key : ∀ (lib : String) (entries : List KwEntryView),
      parseKeywordsFromJson lib (encodeLibdoc entries) =
        Except.ok (specNormalize lib entries) := by
    intro lib entries
    have hget : jsonGetD [("keywords", Json.arr (entries.map encodeKw))] "keywords"
        (Json.arr []) = Json.arr (entries.map encodeKw) := by
      simp [jsonGetD]
    simp only [parseKeywordsFromJson, encodeLibdoc, hget]
    rw [processKeywords_encode]
    rfl
  refine ⟨key, ?_⟩
  rw [key]
  rfl
